import Mathlib

/-!
Verification model for the Duration value type and the block registry described
by the ambient type declarations of this repository.  The repository contains
only declaration files (type signatures with documentation examples) and
type-level tests; the executable behaviour they describe is modelled here from
the specification and from the declared signatures and documentation examples,
using exact rational arithmetic for the numeric quantities.
-/

set_option maxHeartbeats 1000000
set_option maxRecDepth 10000

/-- Modelled from the spec: the nine calendar/clock unit names of the
duration value model (the keys of the unit mapping). -/
inductive DUnit where
  | years
  | quarters
  | months
  | weeks
  | days
  | hours
  | minutes
  | seconds
  | milliseconds
deriving DecidableEq, Fintype, Repr

/-- Modelled from the spec: the conversion-accuracy policy, either approximate
fixed-length assumptions or exact long-term calendar averages. -/
inductive Accuracy where
  | casual
  | longterm
deriving DecidableEq, Repr

/-- Position of a unit in the largest-to-smallest unit ordering. -/
def DUnit.idx : DUnit → ℕ
  | .years => 0
  | .quarters => 1
  | .months => 2
  | .weeks => 3
  | .days => 4
  | .hours => 5
  | .minutes => 6
  | .seconds => 7
  | .milliseconds => 8

/-- The units in canonical order, largest first. -/
def orderedUnits : List DUnit :=
  [.years, .quarters, .months, .weeks, .days, .hours, .minutes, .seconds, .milliseconds]

/-- Milliseconds per unit under the casual accuracy (365-day years,
91-day quarters, 30-day months, 7-day weeks). -/
def casualMs : DUnit → ℚ
  | .years => 31536000000
  | .quarters => 7862400000
  | .months => 2592000000
  | .weeks => 604800000
  | .days => 86400000
  | .hours => 3600000
  | .minutes => 60000
  | .seconds => 1000
  | .milliseconds => 1

/-- Milliseconds per unit under the long-term accuracy (average Gregorian
year of 146097/400 days). -/
def longtermMs : DUnit → ℚ
  | .years => 31556952000
  | .quarters => 7889238000
  | .months => 2629746000
  | .weeks => 604800000
  | .days => 86400000
  | .hours => 3600000
  | .minutes => 60000
  | .seconds => 1000
  | .milliseconds => 1

/-- Modelled from the spec: the downward conversion factor between a larger
unit and a smaller one.  Under casual accuracy the calendar rows carry the
conventional approximate factors (1 year = 12 months = 52 weeks, 1 quarter =
3 months, 1 month = 4 weeks), which are not mutually consistent with the
day-based factors; under long-term accuracy every factor is the ratio of the
millisecond weights. -/
def convDown : Accuracy → DUnit → DUnit → ℚ
  | .casual, .years, .quarters => 4
  | .casual, .years, .months => 12
  | .casual, .years, .weeks => 52
  | .casual, .quarters, .months => 3
  | .casual, .quarters, .weeks => 13
  | .casual, .months, .weeks => 4
  | .casual, a, b => casualMs a / casualMs b
  | .longterm, a, b => longtermMs a / longtermMs b

/-- The full conversion factor table; upward entries are reciprocals of the
downward ones. -/
def conv (acc : Accuracy) (a b : DUnit) : ℚ :=
  if a.idx ≤ b.idx then convDown acc a b else 1 / convDown acc b a

/-- Configuration carried by every duration: locale, numbering system and
conversion accuracy. -/
structure DurConfig where
  locale : String
  numberingSystem : String
  conversionAccuracy : Accuracy
deriving DecidableEq, Repr

/-- Default configuration (locale en-US, casual conversion accuracy). -/
def defaultConfig : DurConfig :=
  ⟨"en-US", "latn", Accuracy.casual⟩

/-- Options accepted by the factory operations; absent fields fall back to
the defaults. -/
structure DurOpts where
  locale : Option String
  numberingSystem : Option String
  conversionAccuracy : Option Accuracy
deriving Repr

/-- The empty options record. -/
def noOpts : DurOpts := ⟨none, none, none⟩

/-- Configuration resulting from a set of factory options. -/
def configOf (o : DurOpts) : DurConfig :=
  ⟨o.locale.getD defaultConfig.locale,
   o.numberingSystem.getD defaultConfig.numberingSystem,
   o.conversionAccuracy.getD defaultConfig.conversionAccuracy⟩

/-- Modelled from the spec: a Duration is an immutable value holding a partial
mapping from unit names to rational quantities (absent = zero), a
configuration, and — when invalid — a reason code with an optional free-text
explanation.  The runtime class this models is only declared, never
implemented, in this repository. -/
structure Duration where
  values : DUnit → Option ℚ
  config : DurConfig
  invalidInfo : Option (String × Option String)

namespace Duration

/-- Whether the duration is valid (no invalid marker present). -/
def isValid (d : Duration) : Bool :=
  d.invalidInfo.isNone

/-- The reason code if the duration is invalid, otherwise none. -/
def invalidReason (d : Duration) : Option String :=
  d.invalidInfo.map Prod.fst

/-- The longer explanation if the duration is invalid and one was given. -/
def invalidExplanation (d : Duration) : Option String :=
  d.invalidInfo.bind Prod.snd

/-- Modelled from the spec: create an explicitly invalid Duration carrying a
reason and an optional explanation. -/
def invalid (reason : String) (explanation : Option String) : Duration :=
  ⟨fun _ => none, defaultConfig, some (reason, explanation)⟩

/-- Modelled from the spec: create a Duration from a count of milliseconds. -/
def fromMillis (count : ℚ) (opts : DurOpts) : Duration :=
  ⟨fun u => if u = DUnit.milliseconds then some count else none, configOf opts, none⟩

/-- Modelled from the spec: create a Duration from a unit mapping. -/
def fromObject (obj : DUnit → Option ℚ) (opts : DurOpts) : Duration :=
  ⟨obj, configOf opts, none⟩

/-- The stored quantity at a unit, an absent entry counting as zero. -/
def gv (d : Duration) (u : DUnit) : ℚ :=
  (d.values u).getD 0

/-- Unit accessor: the quantity at a unit for a valid duration, and the
not-a-number sentinel (modelled as none) for an invalid one. -/
def get (d : Duration) (u : DUnit) : Option ℚ :=
  if d.isValid = true then some (d.gv u) else none

/-- Accessor for the years unit. -/
def years (d : Duration) : Option ℚ := d.get .years

/-- Accessor for the quarters unit. -/
def quarters (d : Duration) : Option ℚ := d.get .quarters

/-- Accessor for the months unit. -/
def months (d : Duration) : Option ℚ := d.get .months

/-- Accessor for the weeks unit. -/
def weeks (d : Duration) : Option ℚ := d.get .weeks

/-- Accessor for the days unit. -/
def days (d : Duration) : Option ℚ := d.get .days

/-- Accessor for the hours unit. -/
def hours (d : Duration) : Option ℚ := d.get .hours

/-- Accessor for the minutes unit. -/
def minutes (d : Duration) : Option ℚ := d.get .minutes

/-- Accessor for the seconds unit. -/
def seconds (d : Duration) : Option ℚ := d.get .seconds

/-- Accessor for the milliseconds unit. -/
def milliseconds (d : Duration) : Option ℚ := d.get .milliseconds

/-- Plain-object form of the duration: its unit mapping when valid, the empty
mapping when invalid. -/
def toObject (d : Duration) : DUnit → Option ℚ :=
  if d.isValid = true then d.values else fun _ => none

/-- Modelled from the spec: equality holds iff both durations are valid and
every unit's stored quantity matches exactly, with no cross-unit
normalization. -/
def equals (a b : Duration) : Bool :=
  a.isValid && b.isValid &&
    orderedUnits.all (fun u => decide ((a.values u).getD 0 = (b.values u).getD 0))

/-- Modelled from the spec: plus combines two durations by summing same-named
unit quantities, with no cross-unit carrying; on an invalid operand the
invalid duration is returned unchanged. -/
def plus (a b : Duration) : Duration :=
  if a.isValid = true then
    if b.isValid = true then
      ⟨fun u =>
        match a.values u, b.values u with
        | none, none => none
        | x, y => some (x.getD 0 + y.getD 0),
       a.config, a.invalidInfo⟩
    else b
  else a

/-- Modelled from the spec: negate flips the sign of every stored unit
quantity. -/
def negate (d : Duration) : Duration :=
  if d.isValid = true then
    ⟨fun u => (d.values u).map (fun q => -q), d.config, d.invalidInfo⟩
  else d

/-- Modelled from the spec: minus subtracts same-named unit quantities, with
no cross-unit carrying. -/
def minus (a b : Duration) : Duration :=
  a.plus b.negate

/-- Modelled from the spec: set overrides the stored quantities of the given
units, keeping the others. -/
def set (d : Duration) (obj : DUnit → Option ℚ) : Duration :=
  if d.isValid = true then
    ⟨fun u => (obj u).orElse (fun _ => d.values u), d.config, d.invalidInfo⟩
  else d

/-- Modelled from the spec: reconfigure replaces the locale, numbering system
or conversion accuracy, keeping the unit values and validity. -/
def reconfigure (d : Duration) (o : DurOpts) : Duration :=
  ⟨d.values,
   ⟨(o.locale).getD d.config.locale,
    (o.numberingSystem).getD d.config.numberingSystem,
    (o.conversionAccuracy).getD d.config.conversionAccuracy⟩,
   d.invalidInfo⟩

/-- Modelled from the spec: mapUnits applies a unit-aware transform function
to each stored unit value. -/
def mapUnits (d : Duration) (f : ℚ → DUnit → ℚ) : Duration :=
  if d.isValid = true then
    ⟨fun u => (d.values u).map (fun q => f q u), d.config, d.invalidInfo⟩
  else d

/-- Modelled from the spec: removeZeros drops every stored unit entry whose
value is exactly zero. -/
def removeZeros (d : Duration) : Duration :=
  if d.isValid = true then
    ⟨fun u =>
      match d.values u with
      | some q => if q = 0 then none else some q
      | none => none,
     d.config, d.invalidInfo⟩
  else d

end Duration

/-- Truncation of a rational toward zero, as a rational. -/
def ratTrunc (q : ℚ) : ℚ :=
  if 0 ≤ q then ((⌊q⌋ : ℤ) : ℚ) else ((⌈q⌉ : ℤ) : ℚ)

/-- Rounding of a rational away from zero, as a rational. -/
def antiTrunc (q : ℚ) : ℚ :=
  if 0 ≤ q then ((⌈q⌉ : ℤ) : ℚ) else ((⌊q⌋ : ℤ) : ℚ)

/-- Sign of a rational: 1, -1 or 0. -/
def qsign (q : ℚ) : ℚ :=
  if 0 < q then 1 else if q < 0 then -1 else 0

/-- First value stored under a key in an association list of unit/quantity
pairs. -/
def alookup (s : List (DUnit × ℚ)) (u : DUnit) : Option ℚ :=
  match s with
  | [] => none
  | p :: r => if p.1 = u then some p.2 else alookup r u

/-- Weighted sum of an association list of unit/quantity pairs. -/
def wsum (w : DUnit → ℚ) (l : List (DUnit × ℚ)) : ℚ :=
  (l.map (fun p => w p.1 * p.2)).sum

/-- Weighted sum of a partial unit mapping over a list of units, absent
entries counting as zero. -/
def vsum (w : DUnit → ℚ) (vals : DUnit → Option ℚ) (l : List DUnit) : ℚ :=
  (l.map (fun u => w u * ((vals u).getD 0))).sum

/-- Total quantity, expressed in the unit k, of the values accumulated so far
from larger units. -/
def boilAt (acc : Accuracy) (pending : List (DUnit × ℚ)) (k : DUnit) : ℚ :=
  (pending.map (fun p => conv acc p.1 k * p.2)).sum

/-- Modelled from the spec: while redistributing at a target unit k, roll the
whole-number part of each remaining smaller unit value up into k, leaving the
fractional remainders in place. -/
def convDowns (acc : Accuracy) (k : DUnit) :
    List DUnit → ℚ → (DUnit → Option ℚ) → ℚ × (DUnit → Option ℚ)
  | [], b, vals => (b, vals)
  | dn :: rest, b, vals =>
    match vals dn with
    | none => convDowns acc k rest b vals
    | some q =>
      let c := conv acc k dn
      let raw := q / c
      let added :=
        if qsign raw ≠ qsign b ∧ b ≠ 0 ∧ |raw| ≤ 1 then antiTrunc raw else ratTrunc raw
      convDowns acc k rest (b + added) (Function.update vals dn (some (q - added * c)))

/-- Modelled from the spec: one left-to-right pass over the unit ordering.
Values of non-target units are accumulated; at each target unit the
accumulated values are boiled down to that unit, its whole-number part is
kept, whole multiples of smaller units are rolled up, and the fractional
remainder is carried toward the next target.  Returns the list of target
entries and the final leftover entries. -/
def shiftGo (acc : Accuracy) (inT : DUnit → Bool) :
    List DUnit → (DUnit → Option ℚ) → List (DUnit × ℚ) →
    List (DUnit × ℚ) × List (DUnit × ℚ)
  | [], _, pending => ([], pending)
  | u :: rest, vals, pending =>
    if inT u = true then
      let own := boilAt acc pending u + (vals u).getD 0
      let i := ratTrunc own
      let bd := convDowns acc u rest i vals
      let res := shiftGo acc inT rest bd.2 [(u, own - i)]
      ((u, bd.1) :: res.1, res.2)
    else
      match vals u with
      | some q => shiftGo acc inT rest vals (pending ++ [(u, q)])
      | none => shiftGo acc inT rest vals pending

/-- Modelled from the spec: the values left over after the pass (smaller
non-target units and the last fractional remainder) become the decimal part
of the last target unit. -/
def settleLast (acc : Accuracy) (built pending : List (DUnit × ℚ)) : List (DUnit × ℚ) :=
  match built.getLast? with
  | none => built
  | some lp =>
    let extra := (pending.map (fun p => if p.1 = lp.1 then p.2 else p.2 / conv acc lp.1 p.1)).sum
    built.dropLast ++ [(lp.1, lp.2 + extra)]

namespace Duration

/-- Total length of the duration in milliseconds, using the configured
conversion accuracy. -/
def msTotal (d : Duration) : ℚ :=
  vsum (fun u => conv d.config.conversionAccuracy u DUnit.milliseconds) d.values orderedUnits

/-- Millisecond value of the duration, or the not-a-number sentinel when
invalid. -/
def toMillis (d : Duration) : Option ℚ :=
  if d.isValid = true then some d.msTotal else none

/-- Modelled from the spec: shiftTo converts the duration into its
representation in a different set of units, redistributing the total across
the chosen units. -/
def shiftTo (d : Duration) (ts : List DUnit) : Duration :=
  if d.isValid = true then
    if ts = [] then d
    else
      let acc := d.config.conversionAccuracy
      let r := shiftGo acc (fun u => decide (u ∈ ts)) orderedUnits d.values []
      let s := settleLast acc r.1 r.2
      ⟨fun u => alookup s u, d.config, d.invalidInfo⟩
  else d

/-- Modelled from the spec: shift the duration to all available units. -/
def shiftToAll (d : Duration) : Duration :=
  d.shiftTo orderedUnits

/-- Modelled from the spec: the length of the whole duration expressed in a
single unit, or the not-a-number sentinel when invalid. -/
def as (d : Duration) (u : DUnit) : Option ℚ :=
  if d.isValid = true then (d.shiftTo [u]).get u else none

end Duration

/-- Modelled from the spec: the roll-up pass of normalize, walking the
present units from smallest to largest and carrying whole multiples of each
smaller present unit into the nearest larger present unit. -/
def rollUp (acc : Accuracy) (factor : ℚ) :
    List DUnit → Option DUnit → (DUnit → Option ℚ) → (DUnit → Option ℚ)
  | [], _, vals => vals
  | u :: rest, prev, vals =>
    match vals u with
    | none => rollUp acc factor rest prev vals
    | some cur =>
      match prev with
      | none => rollUp acc factor rest (some u) vals
      | some p =>
        let pv := (vals p).getD 0 * factor
        let c := conv acc u p
        let r : ℚ := ((⌊pv / c⌋ : ℤ) : ℚ)
        let vals2 :=
          Function.update (Function.update vals p (some ((vals p).getD 0 - r * c * factor)))
            u (some (cur + r * factor))
        rollUp acc factor rest (some u) vals2

namespace Duration

/-- Modelled from the spec: normalize carries values into canonical ranges
per unit ordering, largest to smallest, without changing the total
magnitude. -/
def normalize (d : Duration) : Duration :=
  if d.isValid = true then
    ⟨rollUp d.config.conversionAccuracy (if d.msTotal < 0 then -1 else 1)
       orderedUnits.reverse none d.values,
     d.config, d.invalidInfo⟩
  else d

/-- Modelled from the spec: rescale picks the largest-magnitude non-zero
representation by normalizing, shifting to all units, and dropping zero
entries. -/
def rescale (d : Duration) : Duration :=
  if d.isValid = true then d.normalize.shiftToAll.removeZeros else d

end Duration

/-- How numeric signs are rendered by the token formatter. -/
inductive SignMode where
  | negative
  | all
  | negativeLargestOnly
deriving DecidableEq, Repr

/-- Options of the token formatter: whether to floor values, and the sign
mode. -/
structure FormatOpts where
  floor : Bool
  signMode : SignMode
deriving Repr

/-- Default formatter options (floor on, negative sign mode). -/
def defaultFormatOpts : FormatOpts := ⟨true, SignMode.negative⟩

/-- The unit denoted by a single-letter format token, if any. -/
def tokenUnit : Char → Option DUnit
  | 'S' => some .milliseconds
  | 's' => some .seconds
  | 'm' => some .minutes
  | 'h' => some .hours
  | 'd' => some .days
  | 'M' => some .months
  | 'y' => some .years
  | _ => none

/-- Group a character list into runs of equal characters with their
lengths. -/
def runsOf : List Char → List (Char × ℕ)
  | [] => []
  | c :: r =>
    match runsOf r with
    | (c2, n) :: t => if c = c2 then (c, n + 1) :: t else (c, 1) :: (c2, n) :: t
    | [] => [(c, 1)]

/-- A natural number rendered in decimal and left-padded with zeros to the
given width. -/
def padNat (width : ℕ) (n : ℕ) : String :=
  let s := toString n
  if s.length < width then String.mk (List.replicate (width - s.length) '0') ++ s else s

/-- An integer rendered in decimal with a leading minus sign when
negative. -/
def intRepr (n : ℤ) : String :=
  (if n < 0 then "-" else "") ++ toString n.natAbs

/-- A rational rendered as an integer when whole and as num/den otherwise. -/
def ratRepr (q : ℚ) : String :=
  if q.den = 1 then intRepr q.num else intRepr q.num ++ "/" ++ toString q.den

/-- The distinct units used by the format tokens, in canonical order. -/
def fmtUnits (runs : List (Char × ℕ)) : List DUnit :=
  orderedUnits.filter (fun u => runs.any (fun r => tokenUnit r.1 = some u))

/-- Render one token run against the shifted duration: unknown characters
are literal, token runs print the unit value padded to the run length. -/
def renderRun (shifted : Duration) (largest : Option DUnit) (o : FormatOpts)
    (r : Char × ℕ) : String :=
  match tokenUnit r.1 with
  | none => String.mk (List.replicate r.2 r.1)
  | some u =>
    let v := shifted.gv u
    let t : ℚ := if o.floor = true then ((⌊v⌋ : ℤ) : ℚ) else v
    let showMinus : Bool :=
      match o.signMode with
      | SignMode.negative => decide (t < 0)
      | SignMode.all => decide (t < 0)
      | SignMode.negativeLargestOnly => decide (t < 0) && decide (largest = some u)
    let pre :=
      if showMinus = true then "-"
      else if o.signMode = SignMode.all then "+" else ""
    pre ++ (if o.floor = true then padNat r.2 (⌊v⌋).natAbs else ratRepr |v|)

namespace Duration

/-- Modelled from the spec: the token-based formatter — single-letter unit
tokens with repetition-as-padding semantics, converting to the tokens'
units with shiftTo — which renders an invalid duration as the literal
string Invalid Duration (per the declared return type, not as null). -/
def toFormat (d : Duration) (fmt : String) (o : FormatOpts) : Option String :=
  if d.isValid = true then
    let runs := runsOf fmt.toList
    let us := fmtUnits runs
    let shifted := if us = [] then d else d.shiftTo us
    some (String.join (runs.map (renderRun shifted us.head? o)))
  else some "Invalid Duration"

end Duration

/-- List formatting style for the human-readable representation. -/
inductive ListStyle where
  | long
  | short
  | narrow
deriving DecidableEq, Repr

/-- Options of the human-readable formatter. -/
structure HumanOpts where
  listStyle : ListStyle
  showZeros : Bool
deriving Repr

/-- Default human formatter options (narrow list style, zeros shown). -/
def defaultHumanOpts : HumanOpts := ⟨ListStyle.narrow, true⟩

/-- Singular display name of a unit. -/
def unitNameSing : DUnit → String
  | .years => "year"
  | .quarters => "quarter"
  | .months => "month"
  | .weeks => "week"
  | .days => "day"
  | .hours => "hour"
  | .minutes => "minute"
  | .seconds => "second"
  | .milliseconds => "millisecond"

/-- Plural display name of a unit. -/
def unitNamePlur (u : DUnit) : String :=
  unitNameSing u ++ "s"

/-- Human rendering of one unit entry. -/
def humanPiece (p : DUnit × ℚ) : String :=
  ratRepr p.2 ++ " " ++ (if |p.2| = 1 then unitNameSing p.1 else unitNamePlur p.1)

/-- Join strings with a fixed separator. -/
def joinWith (sep : String) : List String → String
  | [] => ""
  | [x] => x
  | x :: xs => x ++ sep ++ joinWith sep xs

/-- Tail part of the long list style join, keeping the connective before
the last item. -/
def joinLongTail : List String → String
  | [] => ""
  | [x] => "and " ++ x
  | x :: xs => x ++ ", " ++ joinLongTail xs

/-- Join strings in the long list style, with a final connective. -/
def joinLong : List String → String
  | [] => ""
  | [x] => x
  | [x, y] => x ++ " and " ++ y
  | x :: xs => x ++ ", " ++ joinLongTail xs

namespace Duration

/-- Modelled from the spec: the human-readable formatter, listing the units
previously used by the duration (optionally skipping zeros) in a locale
list format. -/
def toHuman (d : Duration) (o : HumanOpts) : Option String :=
  if d.isValid = true then
    let entries := orderedUnits.filterMap (fun u => (d.values u).map (fun q => (u, q)))
    let shown := if o.showZeros = true then entries else entries.filter (fun p => decide (p.2 ≠ 0))
    let pieces := shown.map humanPiece
    some (match o.listStyle with
      | ListStyle.long => joinLong pieces
      | _ => joinWith ", " pieces)
  else some "Invalid Duration"

end Duration

/-- Decimal rendering of a rational, using up to three decimal places when
the value is an integral count of thousandths. -/
def decStr (q : ℚ) : String :=
  if q.den = 1 then intRepr q.num
  else if (q * 1000).den = 1 then
    let m := (q * 1000).num
    (if m < 0 then "-" else "") ++ toString (m.natAbs / 1000) ++ "." ++ padNat 3 (m.natAbs % 1000)
  else intRepr q.num ++ "/" ++ toString q.den

namespace Duration

/-- Modelled from the spec: the ISO-8601 duration serializer (quarters fold
into months and milliseconds into seconds); null on an invalid duration. -/
def toISO (d : Duration) : Option String :=
  if d.isValid = true then
    let y := d.gv .years
    let mo := d.gv .months + 3 * d.gv .quarters
    let w := d.gv .weeks
    let dy := d.gv .days
    let h := d.gv .hours
    let mi := d.gv .minutes
    let se := d.gv .seconds + d.gv .milliseconds / 1000
    let datePart :=
      (if y ≠ 0 then decStr y ++ "Y" else "") ++
      (if mo ≠ 0 then decStr mo ++ "M" else "") ++
      (if w ≠ 0 then decStr w ++ "W" else "") ++
      (if dy ≠ 0 then decStr dy ++ "D" else "")
    let timePart :=
      (if h ≠ 0 then decStr h ++ "H" else "") ++
      (if mi ≠ 0 then decStr mi ++ "M" else "") ++
      (if se ≠ 0 then decStr se ++ "S" else "")
    some ("P" ++ datePart ++ (if timePart = "" then "" else "T" ++ timePart) ++
      (if datePart = "" ∧ timePart = "" then "T0S" else ""))
  else none

end Duration

/-- Basic or extended ISO time layout. -/
inductive ISOFmt where
  | basic
  | extended
deriving DecidableEq, Repr

/-- Options of the ISO time-of-day serializer. -/
structure ISOTimeOpts where
  suppressMilliseconds : Bool
  suppressSeconds : Bool
  includeT : Bool
  format : ISOFmt
deriving Repr

/-- Default ISO time serializer options. -/
def defaultISOTimeOpts : ISOTimeOpts := ⟨false, false, false, ISOFmt.extended⟩

namespace Duration

/-- Modelled from the spec: the ISO-8601 time-of-day serializer with
suppression and layout options; null on an invalid duration. -/
def toISOTime (d : Duration) (o : ISOTimeOpts) : Option String :=
  if d.isValid = true then
    let n : ℤ := ⌊d.msTotal⌋
    let a := n.natAbs
    let hh := a / 3600000
    let mm := a % 3600000 / 60000
    let ss := a % 60000 / 1000
    let ms := a % 1000
    let sep := if o.format = ISOFmt.extended then ":" else ""
    let base := padNat 2 hh ++ sep ++ padNat 2 mm
    let secPart :=
      if o.suppressSeconds = true ∧ ss = 0 ∧ ms = 0 then ""
      else sep ++ padNat 2 ss ++
        (if o.suppressMilliseconds = true ∧ ms = 0 then "" else "." ++ padNat 3 ms)
    some ((if o.includeT = true then "T" else "") ++ (if n < 0 then "-" else "") ++ base ++ secPart)
  else none

/-- ISO representation for JSON, null on an invalid duration. -/
def toJSON (d : Duration) : Option String :=
  d.toISO

/-- ISO representation for debugging, null on an invalid duration. -/
def toString (d : Duration) : Option String :=
  d.toISO

end Duration

/-- Numeric value of a decimal digit character. -/
def digitVal (c : Char) : ℕ :=
  c.toNat - 48

/-- Natural number denoted by a list of decimal digit characters. -/
def digitsToNat (l : List Char) : ℕ :=
  l.foldl (fun a c => 10 * a + digitVal c) 0

/-- Rational fraction denoted by the digit list after a decimal point. -/
def fracVal (l : List Char) : ℚ :=
  (digitsToNat l : ℚ) / ((10 : ℚ) ^ l.length)

/-- Parse an optionally-signed decimal number (with optional fractional
part) from the front of a character list. -/
def pNum (s : List Char) : Option (ℚ × List Char) :=
  let split : Bool × List Char :=
    match s with
    | '-' :: r => (true, r)
    | _ => (false, s)
  let s1 := split.2
  let ds := s1.takeWhile (fun c => c.isDigit)
  let s2 := s1.dropWhile (fun c => c.isDigit)
  if ds = [] then none
  else
    let signed : ℚ → ℚ := fun q => if split.1 = true then -q else q
    match s2 with
    | c :: r2 =>
      if c = '.' ∨ c = ',' then
        let fs := r2.takeWhile (fun c2 => c2.isDigit)
        let r3 := r2.dropWhile (fun c2 => c2.isDigit)
        if fs = [] then none
        else some (signed ((digitsToNat ds : ℚ) + fracVal fs), r3)
      else some (signed (digitsToNat ds : ℚ), s2)
    | [] => some (signed (digitsToNat ds : ℚ), [])

/-- Parse one optional ISO duration component: a number followed by the
given designator letter; backtracks (consuming nothing) when absent. -/
def pComp (letter : Char) (s : List Char) : Option ℚ × List Char :=
  match pNum s with
  | none => (none, s)
  | some (q, rest) =>
    match rest with
    | c :: r2 => if c = letter then (some q, r2) else (none, s)
    | [] => (none, s)

/-- Negate a parsed quantity when the whole string carried a leading
sign. -/
def appSign (neg : Bool) (q : ℚ) : ℚ :=
  if neg = true then -q else q

/-- Assemble the unit mapping parsed from an ISO duration string. -/
def mkISOVals (neg : Bool) (y mo wk dy h mi se : Option ℚ) : DUnit → Option ℚ
  | .years => y.map (appSign neg)
  | .quarters => none
  | .months => mo.map (appSign neg)
  | .weeks => wk.map (appSign neg)
  | .days => dy.map (appSign neg)
  | .hours => h.map (appSign neg)
  | .minutes => mi.map (appSign neg)
  | .seconds => se.map (appSign neg)
  | .milliseconds => none

/-- Modelled from the spec: parser for ISO-8601 duration strings (the
designator P, optional date components Y, M, W, D in order, then an
optional time section T with H, M, S components); returns none exactly on
malformed input. -/
def parseISODur (s : List Char) : Option (DUnit → Option ℚ) :=
  let split : Bool × List Char :=
    match s with
    | '-' :: r => (true, r)
    | _ => (false, s)
  match split.2 with
  | 'P' :: r0 =>
    let (y, r1) := pComp 'Y' r0
    let (mo, r2) := pComp 'M' r1
    let (wk, r3) := pComp 'W' r2
    let (dy, r4) := pComp 'D' r3
    match r4 with
    | 'T' :: r5 =>
      let (h, r6) := pComp 'H' r5
      let (mi, r7) := pComp 'M' r6
      let (se, r8) := pComp 'S' r7
      if r8 = [] then some (mkISOVals split.1 y mo wk dy h mi se) else none
    | [] => some (mkISOVals split.1 y mo wk dy none none none)
    | _ => none
  | _ => none

/-- Parse exactly two decimal digits. -/
def pTwo (s : List Char) : Option (ℕ × List Char) :=
  match s with
  | a :: b :: r =>
    if a.isDigit = true ∧ b.isDigit = true then some (10 * digitVal a + digitVal b, r) else none
  | _ => none

/-- Parse two decimal digits, allowing one leading colon. -/
def pColonTwo (s : List Char) : Option (ℕ × List Char) :=
  match s with
  | ':' :: r => pTwo r
  | _ => pTwo s

/-- Assemble the unit mapping parsed from an ISO time string: hours,
minutes and seconds are always present (absent groups count as zero) and
milliseconds only when a fraction was given. -/
def mkTimeVals (hh mm ss : ℕ) (ms : Option ℚ) : DUnit → Option ℚ
  | .hours => some (hh : ℚ)
  | .minutes => some (mm : ℚ)
  | .seconds => some (ss : ℚ)
  | .milliseconds => ms
  | _ => none

/-- Modelled from the spec: parser for ISO-8601 time-of-day strings (an
optional T, a two-digit hour, then optional two-digit minute and second
groups with optional colons and an optional fractional-second part);
returns none exactly on malformed input. -/
def parseISOTimeD (s : List Char) : Option (DUnit → Option ℚ) :=
  let s0 :=
    match s with
    | 'T' :: r => r
    | _ => s
  match pTwo s0 with
  | none => none
  | some (hh, r1) =>
    match r1 with
    | [] => some (mkTimeVals hh 0 0 none)
    | _ =>
      match pColonTwo r1 with
      | none => none
      | some (mm, r2) =>
        match r2 with
        | [] => some (mkTimeVals hh mm 0 none)
        | _ =>
          match pColonTwo r2 with
          | none => none
          | some (ss, r3) =>
            match r3 with
            | [] => some (mkTimeVals hh mm ss none)
            | c :: r4 =>
              if c = '.' ∨ c = ',' then
                let fs := r4.takeWhile (fun c2 => c2.isDigit)
                let r5 := r4.dropWhile (fun c2 => c2.isDigit)
                if fs ≠ [] ∧ r5 = [] then some (mkTimeVals hh mm ss (some (fracVal fs * 1000)))
                else none
              else none

namespace Duration

/-- Modelled from the spec: create a Duration by parsing an ISO-8601
duration string; a parse failure yields an invalid instance carrying the
reason unparsable and an explanation, never an exception. -/
def fromISO (text : String) (opts : DurOpts) : Duration :=
  match parseISODur text.toList with
  | some vals => ⟨vals, configOf opts, none⟩
  | none =>
    Duration.invalid "unparsable"
      (some ("the input " ++ text ++ " cannot be parsed as ISO 8601"))

/-- Modelled from the spec: create a Duration by parsing an ISO-8601 time
string; a parse failure yields an invalid instance carrying the reason
unparsable and an explanation, never an exception. -/
def fromISOTime (text : String) (opts : DurOpts) : Duration :=
  match parseISOTimeD text.toList with
  | some vals => ⟨vals, configOf opts, none⟩
  | none =>
    Duration.invalid "unparsable"
      (some ("the input " ++ text ++ " cannot be parsed as ISO 8601"))

end Duration

/-- Modelled from the spec: a block schema registered under a unique name;
only the fields relevant to registration are modelled. -/
structure Block where
  name : String
  title : String
  category : String
deriving DecidableEq, Repr

/-- Whether a character may appear in a block name part. -/
def lowerAlnumDash (c : Char) : Bool :=
  c.isLower || c.isDigit || c = '-'

/-- Whether a character list is a well-formed block name part. -/
def validNamePart (l : List Char) : Bool :=
  match l with
  | [] => false
  | c :: r => c.isLower && r.all lowerAlnumDash

/-- Modelled from the spec: block names are namespace/name pairs of
lowercase alphanumeric-dash words. -/
def isValidBlockName (s : String) : Bool :=
  match s.toList.splitOn '/' with
  | [p1, p2] => validNamePart p1 && validNamePart p2
  | _ => false

/-- Modelled from the spec: registering a block schema returns the new
registry and the registered block, or leaves the registry unchanged and
returns an absent result when the input is malformed or the name is
already taken — it never raises and never overwrites. -/
def registerBlockType (reg : List Block) (b : Block) : List Block × Option Block :=
  if isValidBlockName b.name = false then (reg, none)
  else if reg.any (fun x => decide (x.name = b.name)) then (reg, none)
  else (reg ++ [b], some b)

/-- Look up a registered block schema by name. -/
def getBlockType (reg : List Block) (name : String) : Option Block :=
  reg.find? (fun x => decide (x.name = name))

/-- Statement of claim C4 in the spec's words: for every unit name the
stored quantity in a matches the stored quantity in b exactly, an absent
entry counting as zero. -/
def unitwiseSame (a b : Duration) : Bool :=
  decide (∀ u : DUnit, a.gv u = b.gv u)

/-- The strictly time-based units, whose casual conversion factors are
mutually consistent (weeks and smaller). -/
def timeUnits : List DUnit :=
  [.weeks, .days, .hours, .minutes, .seconds, .milliseconds]

section DevChecks

example : (Duration.fromObject (fun u => if u = DUnit.minutes then some 60 else none) noOpts).equals
    (Duration.fromObject (fun u => if u = DUnit.hours then some 1 else none) noOpts) = false := by
  with_unfolding_all decide

example : (Duration.invalid "r" none).equals (Duration.invalid "r" none) = false := by
  with_unfolding_all decide

example : conv Accuracy.casual DUnit.years DUnit.days = 365 := by with_unfolding_all decide

example : conv Accuracy.casual DUnit.milliseconds DUnit.seconds = 1 / 1000 := by with_unfolding_all decide

example : conv Accuracy.longterm DUnit.years DUnit.months = 12 := by with_unfolding_all decide

example :
    (Duration.fromObject (fun u => if u = DUnit.years then some 1 else none) noOpts).as DUnit.days
      = some 365 := by
  with_unfolding_all decide

example :
    (Duration.fromObject (fun u => if u = DUnit.years then some 1 else none) noOpts).as DUnit.months
      = some 12 := by
  with_unfolding_all decide

example :
    (Duration.fromObject (fun u => if u = DUnit.hours then some 60 else none) noOpts).as DUnit.days
      = some (5 / 2) := by
  with_unfolding_all decide

example :
    ((Duration.fromObject
        (fun u => if u = DUnit.hours then some 1 else if u = DUnit.seconds then some 30 else none)
        noOpts).shiftTo [DUnit.minutes, DUnit.milliseconds]).gv DUnit.minutes = 60 := by
  with_unfolding_all decide

example :
    orderedUnits.map
      ((Duration.fromObject (fun u => if u = DUnit.milliseconds then some 90000 else none)
        noOpts).rescale).values
      = [none, none, none, none, none, none, some 1, some 30, none] := by
  with_unfolding_all decide

example :
    orderedUnits.map
      ((Duration.fromObject
        (fun u => if u = DUnit.years then some 2 else if u = DUnit.days then some 5000 else none)
        noOpts).normalize).values
      = [some 15, none, none, none, some 255, none, none, none, none] := by
  with_unfolding_all decide

example :
    orderedUnits.map
      ((Duration.fromObject
        (fun u => if u = DUnit.hours then some 12 else if u = DUnit.minutes then some (-45) else none)
        noOpts).normalize).values
      = [none, none, none, none, none, some 11, some 15, none, none] := by
  with_unfolding_all decide

example :
    orderedUnits.map (Duration.fromISO "P3Y6M1W4DT12H30M5S" noOpts).values
      = [some 3, none, some 6, some 1, some 4, some 12, some 30, some 5, none] := by
  with_unfolding_all decide

example :
    orderedUnits.map (Duration.fromISO "PT23H" noOpts).values
      = [none, none, none, none, none, some 23, none, none, none] := by
  with_unfolding_all decide

example : (parseISODur "hello".toList).isNone = true := by with_unfolding_all decide

example : (parseISODur "P3X".toList).isNone = true := by with_unfolding_all decide

example : (parseISODur "-P1D".toList).isSome = true := by with_unfolding_all decide

example :
    orderedUnits.map (Duration.fromISOTime "11:22:33.444" noOpts).values
      = [none, none, none, none, none, some 11, some 22, some 33, some 444] := by
  with_unfolding_all decide

example :
    orderedUnits.map (Duration.fromISOTime "T1100" noOpts).values
      = [none, none, none, none, none, some 11, some 0, some 0, none] := by
  with_unfolding_all decide

example : (parseISOTimeD "1a:00".toList).isNone = true := by with_unfolding_all decide

example :
    Duration.toISO (Duration.fromObject
      (fun u => if u = DUnit.years then some 3 else if u = DUnit.seconds then some 45 else none)
      noOpts) = some "P3YT45S" := by
  with_unfolding_all decide

example :
    Duration.toISO (Duration.fromObject
      (fun u => if u = DUnit.milliseconds then some 6 else none) noOpts) = some "PT0.006S" := by
  with_unfolding_all decide

example :
    Duration.toISOTime (Duration.fromObject
      (fun u => if u = DUnit.hours then some 11 else none) noOpts) defaultISOTimeOpts
      = some "11:00:00.000" := by
  with_unfolding_all decide

example :
    Duration.toFormat (Duration.fromObject
      (fun u => if u = DUnit.years then some 1
        else if u = DUnit.days then some 6
        else if u = DUnit.seconds then some 2 else none) noOpts)
      "y d s" defaultFormatOpts = some "1 6 2" := by
  with_unfolding_all decide

example :
    Duration.toHuman (Duration.fromObject
      (fun u => if u = DUnit.months then some 1
        else if u = DUnit.weeks then some 0
        else if u = DUnit.hours then some 5
        else if u = DUnit.minutes then some 6 else none) noOpts) defaultHumanOpts
      = some "1 month, 0 weeks, 5 hours, 6 minutes" := by
  with_unfolding_all decide

example :
    (registerBlockType [] ⟨"my/foo", "Foo", "common"⟩).2 = some ⟨"my/foo", "Foo", "common"⟩ := by
  with_unfolding_all decide

example :
    (registerBlockType [⟨"my/foo", "Foo", "common"⟩] ⟨"my/foo", "Bar", "common"⟩).2 = none := by
  with_unfolding_all decide

end DevChecks

/-- Every unit name occurs in the canonical unit list. -/
theorem DUnit.mem_orderedUnits (u : DUnit) : u ∈ orderedUnits := by
  cases u <;> simp [orderedUnits]

/-- C1 counterexample: on an invalid Duration the formatting accessor
toFormat does not return null; it returns the string Invalid Duration, so
the claim that every formatting accessor returns null fails. -/
theorem C1_counterexample :
    ¬ (Duration.toFormat (Duration.invalid "some reason" none) "s" defaultFormatOpts = none) := by
  with_unfolding_all decide

/-- C1 (amended): for every invalid Duration every unit accessor (years,
quarters, months, weeks, days, hours, minutes, seconds, milliseconds, get,
as, toMillis) returns the not-a-number sentinel, and the formatting
accessors toISO, toISOTime, toJSON and toString return null, while
toFormat and toHuman instead return the string Invalid Duration. -/
theorem C1_amended_invalid_accessors (d : Duration) (u : DUnit) (fmt : String)
    (fo : FormatOpts) (iopts : ISOTimeOpts) (ho : HumanOpts) (h : d.isValid = false) :
    d.years = none ∧ d.quarters = none ∧ d.months = none ∧ d.weeks = none ∧
    d.days = none ∧ d.hours = none ∧ d.minutes = none ∧ d.seconds = none ∧
    d.milliseconds = none ∧ d.get u = none ∧ d.as u = none ∧ d.toMillis = none ∧
    d.toISO = none ∧ d.toISOTime iopts = none ∧ d.toJSON = none ∧ d.toString = none ∧
    d.toFormat fmt fo = some "Invalid Duration" ∧ d.toHuman ho = some "Invalid Duration" := by
  simp [Duration.years, Duration.quarters, Duration.months, Duration.weeks, Duration.days,
    Duration.hours, Duration.minutes, Duration.seconds, Duration.milliseconds, Duration.get,
    Duration.as, Duration.toMillis, Duration.toISO, Duration.toISOTime, Duration.toJSON,
    Duration.toString, Duration.toFormat, Duration.toHuman, h]

/-- C1 witness: the amended statement checked on a concrete invalid
duration. -/
theorem C1_witness :
    (Duration.invalid "bad input" none).isValid = false ∧
    ((Duration.invalid "bad input" none).years = none ∧
     (Duration.invalid "bad input" none).quarters = none ∧
     (Duration.invalid "bad input" none).months = none ∧
     (Duration.invalid "bad input" none).weeks = none ∧
     (Duration.invalid "bad input" none).days = none ∧
     (Duration.invalid "bad input" none).hours = none ∧
     (Duration.invalid "bad input" none).minutes = none ∧
     (Duration.invalid "bad input" none).seconds = none ∧
     (Duration.invalid "bad input" none).milliseconds = none ∧
     (Duration.invalid "bad input" none).get DUnit.days = none ∧
     (Duration.invalid "bad input" none).as DUnit.days = none ∧
     (Duration.invalid "bad input" none).toMillis = none ∧
     (Duration.invalid "bad input" none).toISO = none ∧
     (Duration.invalid "bad input" none).toISOTime defaultISOTimeOpts = none ∧
     (Duration.invalid "bad input" none).toJSON = none ∧
     (Duration.invalid "bad input" none).toString = none ∧
     (Duration.invalid "bad input" none).toFormat "s" defaultFormatOpts = some "Invalid Duration" ∧
     (Duration.invalid "bad input" none).toHuman defaultHumanOpts = some "Invalid Duration") :=
  ⟨rfl, C1_amended_invalid_accessors _ DUnit.days "s" defaultFormatOpts defaultISOTimeOpts
    defaultHumanOpts rfl⟩

/-- C2: every transforming operation (plus, minus, set, reconfigure,
mapUnits, shiftTo, shiftToAll, normalize, rescale, negate, removeZeros)
applied to an invalid Duration yields an invalid Duration whose
invalidReason is the receiver's reason propagated unchanged; all
operations are total functions, so nothing is thrown. -/
theorem C2_invalid_propagation (d b : Duration) (obj : DUnit → Option ℚ) (ro : DurOpts)
    (f : ℚ → DUnit → ℚ) (ts : List DUnit) (h : d.isValid = false) :
    ((d.plus b).isValid = false ∧ (d.plus b).invalidReason = d.invalidReason) ∧
    ((d.minus b).isValid = false ∧ (d.minus b).invalidReason = d.invalidReason) ∧
    ((d.set obj).isValid = false ∧ (d.set obj).invalidReason = d.invalidReason) ∧
    ((d.reconfigure ro).isValid = false ∧ (d.reconfigure ro).invalidReason = d.invalidReason) ∧
    ((d.mapUnits f).isValid = false ∧ (d.mapUnits f).invalidReason = d.invalidReason) ∧
    ((d.shiftTo ts).isValid = false ∧ (d.shiftTo ts).invalidReason = d.invalidReason) ∧
    (d.shiftToAll.isValid = false ∧ d.shiftToAll.invalidReason = d.invalidReason) ∧
    (d.normalize.isValid = false ∧ d.normalize.invalidReason = d.invalidReason) ∧
    (d.rescale.isValid = false ∧ d.rescale.invalidReason = d.invalidReason) ∧
    (d.negate.isValid = false ∧ d.negate.invalidReason = d.invalidReason) ∧
    (d.removeZeros.isValid = false ∧ d.removeZeros.invalidReason = d.invalidReason) := by
  have hne : d.invalidInfo ≠ none := by
    intro hn
    simp [Duration.isValid, hn] at h
  obtain ⟨p, hp⟩ := Option.ne_none_iff_exists'.mp hne
  simp [Duration.plus, Duration.minus, Duration.negate, Duration.set, Duration.reconfigure,
    Duration.mapUnits, Duration.shiftTo, Duration.shiftToAll, Duration.normalize,
    Duration.rescale, Duration.removeZeros, Duration.isValid, Duration.invalidReason, hp]

/-- C2 witness: propagation checked on a concrete invalid duration and
concrete operands. -/
theorem C2_witness :
    (Duration.invalid "oops" (some "details")).isValid = false ∧
    (((Duration.invalid "oops" (some "details")).plus
        (Duration.fromMillis 5 noOpts)).isValid = false ∧
     ((Duration.invalid "oops" (some "details")).plus
        (Duration.fromMillis 5 noOpts)).invalidReason
        = (Duration.invalid "oops" (some "details")).invalidReason) :=
  ⟨rfl,
   (C2_invalid_propagation (Duration.invalid "oops" (some "details"))
      (Duration.fromMillis 5 noOpts) (fun _ => none) noOpts (fun q _ => q) [] rfl).1⟩

/-- C3: a parse failure of the ISO-8601 duration (or time) grammar surfaces
as an invalid Duration carrying the textual reason unparsable and a non-null
explanation — both factories are total functions, so no exception can be
thrown. -/
theorem C3_parse_failure_invalid (s : String) (o : DurOpts)
    (h1 : (parseISODur s.toList).isNone = true)
    (h2 : (parseISOTimeD s.toList).isNone = true) :
    ((Duration.fromISO s o).isValid = false ∧
     (Duration.fromISO s o).invalidReason = some "unparsable" ∧
     (Duration.fromISO s o).invalidExplanation ≠ none) ∧
    ((Duration.fromISOTime s o).isValid = false ∧
     (Duration.fromISOTime s o).invalidReason = some "unparsable" ∧
     (Duration.fromISOTime s o).invalidExplanation ≠ none) := by
  have e1 : parseISODur s.data = none := Option.isNone_iff_eq_none.mp h1
  have e2 : parseISOTimeD s.data = none := Option.isNone_iff_eq_none.mp h2
  simp [Duration.fromISO, Duration.fromISOTime, String.toList, e1, e2, Duration.invalid,
    Duration.isValid, Duration.invalidReason, Duration.invalidExplanation]

/-- C3 witness: the malformed input hello is rejected by both parsers and
yields invalid durations with a reason. -/
theorem C3_witness :
    (parseISODur "hello".toList).isNone = true ∧
    (parseISOTimeD "hello".toList).isNone = true ∧
    (((Duration.fromISO "hello" noOpts).isValid = false ∧
      (Duration.fromISO "hello" noOpts).invalidReason = some "unparsable" ∧
      (Duration.fromISO "hello" noOpts).invalidExplanation ≠ none) ∧
     ((Duration.fromISOTime "hello" noOpts).isValid = false ∧
      (Duration.fromISOTime "hello" noOpts).invalidReason = some "unparsable" ∧
      (Duration.fromISOTime "hello" noOpts).invalidExplanation ≠ none)) :=
  ⟨by with_unfolding_all decide, by with_unfolding_all decide,
   C3_parse_failure_invalid "hello" noOpts (by with_unfolding_all decide)
     (by with_unfolding_all decide)⟩

/-- C4 counterexample: the claim quantifies over every pair of Durations,
but an invalid duration stores exactly the same quantities as itself while
equals still returns false, so the stated equivalence fails. -/
theorem C4_counterexample :
    ¬ ((Duration.invalid "nope" none).equals (Duration.invalid "nope" none) = true
        ↔ unitwiseSame (Duration.invalid "nope" none) (Duration.invalid "nope" none) = true) := by
  with_unfolding_all decide

/-- C4 (amended): for every pair of valid Durations, equals returns true
iff for every unit name the stored quantity in one matches the stored
quantity in the other exactly, an absent entry counting as zero and with no
cross-unit normalization. -/
theorem C4_amended_equals_iff (a b : Duration)
    (ha : a.isValid = true) (hb : b.isValid = true) :
    a.equals b = unitwiseSame a b := by
  have hall : (orderedUnits.all
      (fun u => decide ((a.values u).getD 0 = (b.values u).getD 0)))
      = unitwiseSame a b := by
    by_cases hs : unitwiseSame a b = true
    · have hp : ∀ u : DUnit, a.gv u = b.gv u := of_decide_eq_true hs
      rw [hs]
      simp only [List.all_eq_true, decide_eq_true_eq]
      intro u _
      exact hp u
    · have hb2 : unitwiseSame a b = false := by
        cases hu : unitwiseSame a b
        · rfl
        · exact absurd hu hs
      rw [hb2]
      have hp : ¬ ∀ u : DUnit, a.gv u = b.gv u := of_decide_eq_false hb2
      rcases not_forall.mp hp with ⟨u, hu⟩
      apply List.all_eq_false.mpr
      exact ⟨u, DUnit.mem_orderedUnits u, by simpa [Duration.gv] using hu⟩
  simp [Duration.equals, ha, hb, hall]

/-- C4 witness: the amended statement checked on two concrete valid
durations (sixty minutes against one hour, which are not equal because no
cross-unit normalization happens). -/
theorem C4_witness :
    (Duration.fromObject (fun u => if u = DUnit.minutes then some 60 else none)
        noOpts).isValid = true ∧
    (Duration.fromObject (fun u => if u = DUnit.hours then some 1 else none)
        noOpts).isValid = true ∧
    (Duration.fromObject (fun u => if u = DUnit.minutes then some 60 else none) noOpts).equals
        (Duration.fromObject (fun u => if u = DUnit.hours then some 1 else none) noOpts)
      = unitwiseSame
          (Duration.fromObject (fun u => if u = DUnit.minutes then some 60 else none) noOpts)
          (Duration.fromObject (fun u => if u = DUnit.hours then some 1 else none) noOpts) :=
  ⟨rfl, rfl,
   C4_amended_equals_iff
     (Duration.fromObject (fun u => if u = DUnit.minutes then some 60 else none) noOpts)
     (Duration.fromObject (fun u => if u = DUnit.hours then some 1 else none) noOpts) rfl rfl⟩

/-- C5: reconstructing a valid Duration from its plain-object form via the
unit-mapping factory yields a Duration equal to the original under
equals. -/
theorem C5_toObject_roundtrip (d : Duration) (o : DurOpts) (h : d.isValid = true) :
    (Duration.fromObject d.toObject o).equals d = true := by
  have hno : d.invalidInfo = none := by
    simpa [Duration.isValid, Option.isNone_iff_eq_none] using h
  simp [Duration.fromObject, Duration.toObject, Duration.equals, Duration.isValid, hno,
    List.all_eq_true]

/-- C5 witness: the round trip checked on a concrete valid duration. -/
theorem C5_witness :
    (Duration.fromObject
      (fun u => if u = DUnit.years then some 1
        else if u = DUnit.days then some 6
        else if u = DUnit.seconds then some 2 else none) noOpts).isValid = true ∧
    (Duration.fromObject
      (Duration.fromObject
        (fun u => if u = DUnit.years then some 1
          else if u = DUnit.days then some 6
          else if u = DUnit.seconds then some 2 else none) noOpts).toObject noOpts).equals
      (Duration.fromObject
        (fun u => if u = DUnit.years then some 1
          else if u = DUnit.days then some 6
          else if u = DUnit.seconds then some 2 else none) noOpts) = true :=
  ⟨rfl,
   C5_toObject_roundtrip
     (Duration.fromObject
       (fun u => if u = DUnit.years then some 1
         else if u = DUnit.days then some 6
         else if u = DUnit.seconds then some 2 else none) noOpts) noOpts rfl⟩

/-- A valid duration carries no invalid marker. -/
theorem Duration.valid_invalidInfo_eq_none {d : Duration} (h : d.isValid = true) :
    d.invalidInfo = none := by
  simpa [Duration.isValid, Option.isNone_iff_eq_none] using h

/-- The quantity of a sum at a unit is the sum of the operand quantities
there. -/
theorem Duration.get_plus (a b : Duration) (u : DUnit)
    (ha : a.isValid = true) (hb : b.isValid = true) :
    (a.plus b).get u = some (a.gv u + b.gv u) := by
  have hna := Duration.valid_invalidInfo_eq_none ha
  have hnb := Duration.valid_invalidInfo_eq_none hb
  simp only [Duration.plus, Duration.isValid, hna, hnb, Option.isNone_none, if_true]
  simp only [Duration.get, Duration.isValid, Duration.gv, Option.isNone_none, if_true]
  cases hav : a.values u <;> cases hbv : b.values u <;> simp

/-- Negation flips the stored quantity at every unit and keeps validity. -/
theorem Duration.gv_negate (b : Duration) (u : DUnit) (hb : b.isValid = true) :
    b.negate.gv u = -(b.gv u) ∧ b.negate.isValid = true := by
  have hnb := Duration.valid_invalidInfo_eq_none hb
  constructor
  · simp only [Duration.negate, Duration.isValid, hnb, Option.isNone_none, if_true, Duration.gv]
    cases hbv : b.values u <;> simp
  · simp [Duration.negate, Duration.isValid, hnb]

/-- C6: for valid Durations, plus and minus act pointwise on same-named
unit quantities — the result's quantity at every unit name is the sum
(respectively difference) of the operands' quantities at that name, with no
cross-unit carrying. -/
theorem C6_plus_minus_pointwise (a b : Duration) (u : DUnit)
    (ha : a.isValid = true) (hb : b.isValid = true) :
    (a.plus b).get u = some (a.gv u + b.gv u) ∧
    (a.minus b).get u = some (a.gv u - b.gv u) := by
  have h1 := Duration.get_plus a b u ha hb
  have h2 := Duration.gv_negate b u hb
  have h3 := Duration.get_plus a b.negate u ha h2.2
  refine ⟨h1, ?_⟩
  rw [Duration.minus, h3, h2.1, ← sub_eq_add_neg]

/-- C6 witness: pointwise sums and differences checked on two concrete
valid durations at the minutes unit. -/
theorem C6_witness :
    (Duration.fromObject
      (fun u => if u = DUnit.hours then some 1 else if u = DUnit.minutes then some 30 else none)
      noOpts).isValid = true ∧
    (Duration.fromObject (fun u => if u = DUnit.minutes then some 12 else none)
      noOpts).isValid = true ∧
    (((Duration.fromObject
        (fun u => if u = DUnit.hours then some 1 else if u = DUnit.minutes then some 30 else none)
        noOpts).plus
        (Duration.fromObject (fun u => if u = DUnit.minutes then some 12 else none) noOpts)).get
        DUnit.minutes
      = some ((Duration.fromObject
          (fun u => if u = DUnit.hours then some 1 else if u = DUnit.minutes then some 30 else none)
          noOpts).gv DUnit.minutes
          + (Duration.fromObject (fun u => if u = DUnit.minutes then some 12 else none) noOpts).gv
            DUnit.minutes) ∧
     ((Duration.fromObject
        (fun u => if u = DUnit.hours then some 1 else if u = DUnit.minutes then some 30 else none)
        noOpts).minus
        (Duration.fromObject (fun u => if u = DUnit.minutes then some 12 else none) noOpts)).get
        DUnit.minutes
      = some ((Duration.fromObject
          (fun u => if u = DUnit.hours then some 1 else if u = DUnit.minutes then some 30 else none)
          noOpts).gv DUnit.minutes
          - (Duration.fromObject (fun u => if u = DUnit.minutes then some 12 else none) noOpts).gv
            DUnit.minutes)) :=
  ⟨rfl, rfl,
   C6_plus_minus_pointwise
     (Duration.fromObject
       (fun u => if u = DUnit.hours then some 1 else if u = DUnit.minutes then some 30 else none)
       noOpts)
     (Duration.fromObject (fun u => if u = DUnit.minutes then some 12 else none) noOpts)
     DUnit.minutes rfl rfl⟩

/-- C9: registering a block schema under a name that is already registered
returns an absent result and leaves the registry unchanged — nothing is
raised and nothing is overwritten. -/
theorem C9_duplicate_registration_rejected (reg : List Block) (b : Block)
    (h : reg.any (fun x => decide (x.name = b.name)) = true) :
    (registerBlockType reg b).2 = none ∧ (registerBlockType reg b).1 = reg := by
  unfold registerBlockType
  by_cases hv : isValidBlockName b.name = false <;> simp [hv, h]

/-- C9 witness: duplicate registration rejected on a concrete registry. -/
theorem C9_witness :
    ([Block.mk "my/foo" "Foo" "common"].any
      (fun x => decide (x.name = (Block.mk "my/foo" "Bar" "common").name)) = true) ∧
    ((registerBlockType [Block.mk "my/foo" "Foo" "common"]
        (Block.mk "my/foo" "Bar" "common")).2 = none ∧
     (registerBlockType [Block.mk "my/foo" "Foo" "common"]
        (Block.mk "my/foo" "Bar" "common")).1 = [Block.mk "my/foo" "Foo" "common"]) :=
  ⟨by with_unfolding_all decide,
   C9_duplicate_registration_rejected [Block.mk "my/foo" "Foo" "common"]
     (Block.mk "my/foo" "Bar" "common") (by with_unfolding_all decide)⟩

/-- C10: equals on an invalid Duration returns false whatever the other
argument is, the receiver itself included, so equality is not reflexive on
invalid durations. -/
theorem C10_invalid_equals_false (d o : Duration) (h : d.isValid = false) :
    d.equals o = false := by
  simp [Duration.equals, h]

/-- C10 witness: an invalid duration does not even equal itself. -/
theorem C10_witness :
    (Duration.invalid "broken" none).isValid = false ∧
    (Duration.invalid "broken" none).equals (Duration.invalid "broken" none) = false :=
  ⟨rfl, C10_invalid_equals_false (Duration.invalid "broken" none)
    (Duration.invalid "broken" none) rfl⟩

/-- The canonical unit list has no duplicates. -/
theorem orderedUnits_nodup : orderedUnits.Nodup := by
  decide

/-- Weighted sums agree for mappings that agree on the summed units. -/
theorem vsum_congrOn (w : DUnit → ℚ) (f g : DUnit → Option ℚ) :
    ∀ L : List DUnit, (∀ u ∈ L, f u = g u) → vsum w f L = vsum w g L := by
  intro L
  induction L with
  | nil => intro _; rfl
  | cons y t ih =>
    intro h
    simp only [vsum, List.map_cons, List.sum_cons] at ih ⊢
    rw [h y (List.mem_cons_self y t), ih (fun u hu => h u (List.mem_cons_of_mem y hu))]

/-- The weighted sum of the empty mapping vanishes. -/
theorem vsum_none (w : DUnit → ℚ) :
    ∀ L : List DUnit, vsum w (fun _ => (none : Option ℚ)) L = 0 := by
  intro L
  induction L with
  | nil => rfl
  | cons y t ih =>
    simp only [vsum, List.map_cons, List.sum_cons, Option.getD_none, mul_zero, zero_add] at ih ⊢
    exact ih

/-- A key absent from an association list looks up to none. -/
theorem alookup_eq_none (u : DUnit) :
    ∀ s : List (DUnit × ℚ), u ∉ s.map Prod.fst → alookup s u = none := by
  intro s
  induction s with
  | nil => intro _; rfl
  | cons p r ih =>
    intro h
    simp only [List.map_cons, List.mem_cons] at h
    push_neg at h
    have hne : ¬ (p.1 = u) := fun he => h.1 he.symm
    rw [alookup, if_neg hne]
    exact ih h.2

/-- Removing a single shadowing entry from a mapping removes exactly its
weighted contribution. -/
theorem vsum_shadow (w : DUnit → ℚ) (f g : DUnit → Option ℚ) (x : DUnit) (a : ℚ)
    (hf : f x = some a) (hg : g x = none) (hfg : ∀ y, y ≠ x → f y = g y) :
    ∀ L : List DUnit, L.Nodup → x ∈ L → vsum w f L = w x * a + vsum w g L := by
  intro L
  induction L with
  | nil => intro _ hx; exact absurd hx (List.not_mem_nil x)
  | cons y t ih =>
    intro hnd hx
    rcases List.nodup_cons.mp hnd with ⟨hyt, hndt⟩
    simp only [vsum, List.map_cons, List.sum_cons] at ih ⊢
    by_cases hyx : y = x
    · subst hyx
      have ht : vsum w f t = vsum w g t :=
        vsum_congrOn w f g t (fun u hu => hfg u (fun he => hyt (he ▸ hu)))
      simp only [vsum] at ht
      rw [hf, hg, ht]
      simp only [Option.getD_some, Option.getD_none, mul_zero]
      ring
    · have hxt : x ∈ t := by
        rcases List.mem_cons.mp hx with h1 | h2
        · exact absurd h1.symm hyx
        · exact h2
      rw [hfg y hyx, ih hndt hxt]
      ring

/-- A mapping supported on a single unit sums to that unit's weighted
value. -/
theorem vsum_single (w : DUnit → ℚ) (f : DUnit → Option ℚ) (u : DUnit)
    (hnone : ∀ x, x ≠ u → f x = none) :
    ∀ L : List DUnit, L.Nodup → u ∈ L → vsum w f L = w u * (f u).getD 0 := by
  intro L
  induction L with
  | nil => intro _ hx; exact absurd hx (List.not_mem_nil u)
  | cons y t ih =>
    intro hnd hx
    rcases List.nodup_cons.mp hnd with ⟨hyt, hndt⟩
    simp only [vsum, List.map_cons, List.sum_cons] at ih ⊢
    by_cases hyu : y = u
    · subst hyu
      have ht : vsum w f t = 0 := by
        rw [vsum_congrOn w f (fun _ => none) t (fun v hv => hnone v (fun he => hyt (he ▸ hv)))]
        exact vsum_none w t
      simp only [vsum] at ht
      rw [ht]
      ring
    · have hut : u ∈ t := by
        rcases List.mem_cons.mp hx with h1 | h2
        · exact absurd h1.symm hyu
        · exact h2
      rw [hnone y hyu, ih hndt hut]
      simp

/-- When the conversion factors are ratios of a weight function, boiling a
pending list down to a unit preserves its weighted sum. -/
theorem boilAt_spec (acc : Accuracy) (S : DUnit → Bool) (w : DUnit → ℚ)
    (Hc : ∀ a b, S a = true → S b = true → conv acc a b = w a / w b)
    (Hw : ∀ x, S x = true → w x ≠ 0) (k : DUnit) (hk : S k = true) :
    ∀ pending : List (DUnit × ℚ), (∀ p ∈ pending, S p.1 = true) →
      w k * boilAt acc pending k = wsum w pending := by
  intro pending
  induction pending with
  | nil => intro _; simp [boilAt, wsum]
  | cons p r ih =>
    intro hp
    have hpS : S p.1 = true := hp p (List.mem_cons_self p r)
    simp only [boilAt, wsum, List.map_cons, List.sum_cons] at ih ⊢
    rw [mul_add, ih (fun q hq => hp q (List.mem_cons_of_mem p hq)),
      Hc p.1 k hpS hk]
    have hkne := Hw k hk
    field_simp
    try ring

/-- The leftover redistribution of settleLast carries exactly the weighted
sum of the pending entries into the last unit. -/
theorem settleExtra_spec (acc : Accuracy) (S : DUnit → Bool) (w : DUnit → ℚ)
    (Hc : ∀ a b, S a = true → S b = true → conv acc a b = w a / w b)
    (Hw : ∀ x, S x = true → w x ≠ 0) (k : DUnit) (hk : S k = true) :
    ∀ pending : List (DUnit × ℚ), (∀ p ∈ pending, S p.1 = true) →
      w k * (pending.map (fun p => if p.1 = k then p.2 else p.2 / conv acc k p.1)).sum
        = wsum w pending := by
  intro pending
  induction pending with
  | nil => intro _; simp [wsum]
  | cons p r ih =>
    intro hp
    have hpS : S p.1 = true := hp p (List.mem_cons_self p r)
    simp only [wsum, List.map_cons, List.sum_cons] at ih ⊢
    rw [mul_add, ih (fun q hq => hp q (List.mem_cons_of_mem p hq))]
    congr 1
    by_cases hpk : p.1 = k
    · rw [if_pos hpk, hpk]
    · rw [if_neg hpk, Hc k p.1 hk hpS]
      have h1 := Hw k hk
      have h2 := Hw p.1 hpS
      field_simp
      try ring

/-- Rolling the whole-number parts of smaller units into a target unit
preserves the combined weighted total, changes the mapping only on the
processed units, and keeps unsupported units absent. -/
theorem convDowns_spec (acc : Accuracy) (S : DUnit → Bool) (w : DUnit → ℚ)
    (Hc : ∀ a b, S a = true → S b = true → conv acc a b = w a / w b)
    (Hw : ∀ x, S x = true → w x ≠ 0) (k : DUnit) (hk : S k = true) :
    ∀ (M : List DUnit) (b : ℚ) (vals : DUnit → Option ℚ),
      M.Nodup → (∀ x, S x = false → vals x = none) →
      (w k * (convDowns acc k M b vals).1 + vsum w (convDowns acc k M b vals).2 M
        = w k * b + vsum w vals M)
      ∧ (∀ x, x ∉ M → (convDowns acc k M b vals).2 x = vals x)
      ∧ (∀ x, S x = false → (convDowns acc k M b vals).2 x = none) := by
  intro M
  induction M with
  | nil =>
    intro b vals _ hnone
    refine ⟨by simp [convDowns, vsum], fun x _ => rfl, fun x hx => ?_⟩
    simpa [convDowns] using hnone x hx
  | cons dn rest ih =>
    intro b vals hnd hnone
    rcases List.nodup_cons.mp hnd with ⟨hdr, hndr⟩
    cases hdn : vals dn with
    | none =>
      have hrec := ih b vals hndr hnone
      constructor
      · simp only [convDowns, hdn, vsum, List.map_cons, List.sum_cons]
        simp only [vsum] at hrec
        have hu : (convDowns acc k rest b vals).2 dn = vals dn := hrec.2.1 dn hdr
        rw [hu, hdn]
        simp only [Option.getD_none, mul_zero, zero_add]
        exact hrec.1
      · refine ⟨fun x hx => ?_, fun x hx => ?_⟩
        · simp only [convDowns, hdn]
          exact hrec.2.1 x (fun hm => hx (List.mem_cons_of_mem dn hm))
        · simp only [convDowns, hdn]
          exact hrec.2.2 x hx
    | some q =>
      have hdnS : S dn = true := by
        cases hS : S dn
        · exact absurd (hnone dn hS) (by simp [hdn])
        · rfl
      have hwk := Hw k hk
      have hwdn := Hw dn hdnS
      -- name the rolled amount and the updated mapping
      set c := conv acc k dn with hc
      set raw := q / c with hraw
      set added :=
        (if qsign raw ≠ qsign b ∧ b ≠ 0 ∧ |raw| ≤ 1 then antiTrunc raw else ratTrunc raw)
        with hadded
      set vals2 := Function.update vals dn (some (q - added * c)) with hv2
      have hnone2 : ∀ x, S x = false → vals2 x = none := by
        intro x hx
        have hxdn : x ≠ dn := fun he => by
          rw [he] at hx
          rw [hx] at hdnS
          exact Bool.false_ne_true hdnS
        rw [hv2, Function.update_noteq hxdn]
        exact hnone x hx
      have hstep : convDowns acc k (dn :: rest) b vals
          = convDowns acc k rest (b + added) vals2 := by
        rw [convDowns, hdn]
      have hrec := ih (b + added) vals2 hndr hnone2
      refine ⟨?_, fun x hx => ?_, fun x hx => ?_⟩
      · rw [hstep]
        simp only [vsum, List.map_cons, List.sum_cons]
        have hu : (convDowns acc k rest (b + added) vals2).2 dn = vals2 dn :=
          hrec.2.1 dn hdr
        have hval2dn : vals2 dn = some (q - added * c) := by
          rw [hv2]
          simp
        have ht : vsum w vals2 rest = vsum w vals rest := by
          apply vsum_congrOn
          intro x hx
          have hxdn : x ≠ dn := fun he => hdr (he ▸ hx)
          rw [hv2, Function.update_noteq hxdn]
        simp only [vsum] at hrec ht
        have heq := hrec.1
        rw [ht] at heq
        have hcc : c = w k / w dn := Hc k dn hk hdnS
        have hval : w dn * (q - added * c) = w dn * q - added * w k := by
          rw [hcc]
          field_simp
          ring
        rw [hu, hval2dn, Option.getD_some, hval]
        simp only [hdn, Option.getD_some]
        linarith [heq]
      · rw [hstep]
        have h1 : (convDowns acc k rest (b + added) vals2).2 x = vals2 x :=
          hrec.2.1 x (fun hm => hx (List.mem_cons_of_mem dn hm))
        have hxdn : x ≠ dn := fun he => hx (he ▸ List.mem_cons_self dn rest)
        rw [h1, hv2, Function.update_noteq hxdn]
      · rw [hstep]
        exact hrec.2.2 x hx

/-- One unfolding step of the pass at a target unit. -/
theorem shiftGo_cons_target (acc : Accuracy) (inT : DUnit → Bool) (u : DUnit)
    (rest : List DUnit) (vals : DUnit → Option ℚ) (pending : List (DUnit × ℚ))
    (hT : inT u = true) :
    shiftGo acc inT (u :: rest) vals pending
      = ((u, (convDowns acc u rest (ratTrunc (boilAt acc pending u + (vals u).getD 0)) vals).1)
          :: (shiftGo acc inT rest
               (convDowns acc u rest (ratTrunc (boilAt acc pending u + (vals u).getD 0)) vals).2
               [(u, boilAt acc pending u + (vals u).getD 0
                   - ratTrunc (boilAt acc pending u + (vals u).getD 0))]).1,
         (shiftGo acc inT rest
            (convDowns acc u rest (ratTrunc (boilAt acc pending u + (vals u).getD 0)) vals).2
            [(u, boilAt acc pending u + (vals u).getD 0
                - ratTrunc (boilAt acc pending u + (vals u).getD 0))]).2) := by
  simp only [shiftGo, hT, if_true]

/-- One unfolding step of the pass at a skipped unit that holds a value. -/
theorem shiftGo_cons_accum (acc : Accuracy) (inT : DUnit → Bool) (u : DUnit)
    (rest : List DUnit) (vals : DUnit → Option ℚ) (pending : List (DUnit × ℚ)) (q : ℚ)
    (hT : inT u = false) (hv : vals u = some q) :
    shiftGo acc inT (u :: rest) vals pending
      = shiftGo acc inT rest vals (pending ++ [(u, q)]) := by
  simp only [shiftGo, hT, hv, Bool.false_eq_true, if_false]

/-- One unfolding step of the pass at a skipped unit with no value. -/
theorem shiftGo_cons_skip (acc : Accuracy) (inT : DUnit → Bool) (u : DUnit)
    (rest : List DUnit) (vals : DUnit → Option ℚ) (pending : List (DUnit × ℚ))
    (hT : inT u = false) (hv : vals u = none) :
    shiftGo acc inT (u :: rest) vals pending
      = shiftGo acc inT rest vals pending := by
  simp only [shiftGo, hT, hv, Bool.false_eq_true, if_false]

/-- Main invariant of the redistribution pass: the weighted sum of the
built entries and the leftovers equals the weighted sum of the initial
pending entries and the remaining values; leftovers stay inside the
supported set and the built keys are exactly the targets in order. -/
theorem shiftGo_spec (acc : Accuracy) (S : DUnit → Bool) (w : DUnit → ℚ)
    (Hc : ∀ a b, S a = true → S b = true → conv acc a b = w a / w b)
    (Hw : ∀ x, S x = true → w x ≠ 0) (inT : DUnit → Bool)
    (HT : ∀ x, S x = false → inT x = false) :
    ∀ (L : List DUnit) (vals : DUnit → Option ℚ) (pending : List (DUnit × ℚ)),
      L.Nodup → (∀ x, S x = false → vals x = none) → (∀ p ∈ pending, S p.1 = true) →
      (wsum w (shiftGo acc inT L vals pending).1 + wsum w (shiftGo acc inT L vals pending).2
        = wsum w pending + vsum w vals L)
      ∧ (∀ p ∈ (shiftGo acc inT L vals pending).2, S p.1 = true)
      ∧ ((shiftGo acc inT L vals pending).1.map Prod.fst = L.filter (fun x => inT x)) := by
  intro L
  induction L with
  | nil =>
    intro vals pending _ _ hp
    refine ⟨by simp [shiftGo, wsum, vsum], ?_, by simp [shiftGo]⟩
    simpa [shiftGo] using hp
  | cons u rest ih =>
    intro vals pending hnd hnone hp
    rcases List.nodup_cons.mp hnd with ⟨hur, hndr⟩
    by_cases hT : inT u = true
    · have hSu : S u = true := by
        cases hS : S u
        · rw [HT u hS] at hT
          exact absurd hT (by simp)
        · rfl
      rw [shiftGo_cons_target acc inT u rest vals pending hT]
      set own := boilAt acc pending u + (vals u).getD 0 with hown
      set i := ratTrunc own with hi
      set B := convDowns acc u rest i vals with hB
      set R := shiftGo acc inT rest B.2 [(u, own - i)] with hR
      have hBspec := convDowns_spec acc S w Hc Hw u hSu rest i vals hndr hnone
      rw [← hB] at hBspec
      have hRP : ∀ p ∈ [(u, own - i)], S p.1 = true := by
        intro p hmem
        rcases List.mem_singleton.mp hmem with rfl
        exact hSu
      have hRspec := ih B.2 [(u, own - i)] hndr hBspec.2.2 hRP
      rw [← hR] at hRspec
      have hboil := boilAt_spec acc S w Hc Hw u hSu pending hp
      refine ⟨?_, hRspec.2.1, ?_⟩
      · have h1 := hRspec.1
        have h2 := hBspec.1
        simp only [wsum, vsum, List.map_cons, List.sum_cons, List.map_nil, List.sum_nil,
          add_zero] at h1 h2 hboil ⊢
        linear_combination h1 + h2 + hboil + (w u) * hown
      · simp [hRspec.2.2, List.filter_cons, hT]
    · have hTf : inT u = false := by
        cases hTu : inT u
        · rfl
        · exact absurd hTu hT
      cases hvu : vals u with
      | some q =>
        have hSu : S u = true := by
          cases hS : S u
          · exact absurd (hnone u hS) (by simp [hvu])
          · rfl
        rw [shiftGo_cons_accum acc inT u rest vals pending q hTf hvu]
        have hp2 : ∀ p ∈ pending ++ [(u, q)], S p.1 = true := by
          intro p hmem
          rcases List.mem_append.mp hmem with h1 | h2
          · exact hp p h1
          · rcases List.mem_singleton.mp h2 with rfl
            exact hSu
        have hrec := ih vals (pending ++ [(u, q)]) hndr hnone hp2
        refine ⟨?_, hrec.2.1, ?_⟩
        · have h1 := hrec.1
          simp only [wsum, vsum, List.map_cons, List.map_append, List.sum_cons,
            List.sum_append, List.map_nil, List.sum_nil, add_zero, hvu,
            Option.getD_some] at h1 ⊢
          linarith [h1]
        · simp only [hrec.2.2, List.filter_cons, hTf, Bool.false_eq_true, if_false]
      | none =>
        rw [shiftGo_cons_skip acc inT u rest vals pending hTf hvu]
        have hrec := ih vals pending hndr hnone hp
        refine ⟨?_, hrec.2.1, ?_⟩
        · have h1 := hrec.1
          simp only [wsum, vsum, List.map_cons, List.sum_cons, hvu, Option.getD_none,
            mul_zero, zero_add] at h1 ⊢
          linarith [h1]
        · simp only [hrec.2.2, List.filter_cons, hTf, Bool.false_eq_true, if_false]

/-- Settling the leftovers into the last built unit preserves the combined
weighted sum and keeps the built keys. -/
theorem settleLast_spec (acc : Accuracy) (S : DUnit → Bool) (w : DUnit → ℚ)
    (Hc : ∀ a b, S a = true → S b = true → conv acc a b = w a / w b)
    (Hw : ∀ x, S x = true → w x ≠ 0) (built pending : List (DUnit × ℚ))
    (hb : ∀ p ∈ built, S p.1 = true) (hp : ∀ p ∈ pending, S p.1 = true)
    (hne : built ≠ []) :
    wsum w (settleLast acc built pending) = wsum w built + wsum w pending
    ∧ (settleLast acc built pending).map Prod.fst = built.map Prod.fst := by
  have hgl : built.getLast? = some (built.getLast hne) := List.getLast?_eq_getLast built hne
  set lp := built.getLast hne with hlp
  have hsplit : built.dropLast ++ [lp] = built := List.dropLast_append_getLast hne
  have hlpmem : lp ∈ built := List.getLast_mem hne
  have hlpS : S lp.1 = true := hb lp hlpmem
  have hstep : settleLast acc built pending
      = built.dropLast ++ [(lp.1, lp.2
          + (pending.map (fun p => if p.1 = lp.1 then p.2 else p.2 / conv acc lp.1 p.1)).sum)] := by
    rw [settleLast, hgl]
  have hextra := settleExtra_spec acc S w Hc Hw lp.1 hlpS pending hp
  constructor
  · rw [hstep]
    have hbuilt : wsum w built = wsum w built.dropLast + w lp.1 * lp.2 := by
      conv_lhs => rw [← hsplit]
      simp [wsum, List.map_append, List.sum_append]
    simp only [wsum, List.map_append, List.sum_append, List.map_cons, List.map_nil,
      List.sum_cons, List.sum_nil, add_zero] at hbuilt hextra ⊢
    linarith [hbuilt, hextra]
  · rw [hstep]
    conv_rhs => rw [← hsplit]
    simp

/-- Summing a lookup mapping over a superset of its nodup keys gives the
weighted sum of the association list. -/
theorem vsum_alookup (w : DUnit → ℚ) :
    ∀ (s : List (DUnit × ℚ)) (L : List DUnit),
      L.Nodup → (∀ x ∈ s.map Prod.fst, x ∈ L) → (s.map Prod.fst).Nodup →
      vsum w (fun v => alookup s v) L = wsum w s := by
  intro s
  induction s with
  | nil =>
    intro L _ _ _
    simp only [wsum, List.map_nil, List.sum_nil]
    exact vsum_none w L
  | cons p s2 ih =>
    intro L hnd hsub hknd
    simp only [List.map_cons] at hknd hsub
    rcases List.nodup_cons.mp hknd with ⟨hps2, hknd2⟩
    have hf : alookup (p :: s2) p.1 = some p.2 := by simp [alookup]
    have hg : alookup s2 p.1 = none := alookup_eq_none p.1 s2 hps2
    have hfg : ∀ y, y ≠ p.1 → alookup (p :: s2) y = alookup s2 y := by
      intro y hy
      rw [alookup, if_neg (fun he => hy he.symm)]
    have hmem : p.1 ∈ L := hsub p.1 (List.mem_cons_self _ _)
    rw [vsum_shadow w (fun v => alookup (p :: s2) v) (fun v => alookup s2 v) p.1 p.2 hf hg hfg
        L hnd hmem,
      ih L hnd (fun x hx => hsub x (List.mem_cons_of_mem _ hx)) hknd2]
    simp [wsum]

/-- On the strictly time-based units the casual conversion factors are the
ratios of the casual millisecond weights. -/
theorem conv_casual_time_ratio :
    ∀ a b : DUnit, decide (a ∈ timeUnits) = true → decide (b ∈ timeUnits) = true →
      conv Accuracy.casual a b = casualMs a / casualMs b := by
  intro a b ha hb
  have ha2 : a ∈ timeUnits := of_decide_eq_true ha
  have hb2 : b ∈ timeUnits := of_decide_eq_true hb
  fin_cases ha2 <;> fin_cases hb2 <;>
    norm_num [conv, convDown, casualMs, DUnit.idx]

/-- Every long-term conversion factor is the ratio of the long-term
millisecond weights. -/
theorem conv_longterm_ratio :
    ∀ a b : DUnit, conv Accuracy.longterm a b = longtermMs a / longtermMs b := by
  intro a b
  cases a <;> cases b <;>
    norm_num [conv, convDown, longtermMs, DUnit.idx]

/-- The casual millisecond weights never vanish. -/
theorem casualMs_ne_zero : ∀ x : DUnit, casualMs x ≠ 0 := by
  intro x
  cases x <;> norm_num [casualMs]

/-- The long-term millisecond weights never vanish. -/
theorem longtermMs_ne_zero : ∀ x : DUnit, longtermMs x ≠ 0 := by
  intro x
  cases x <;> norm_num [longtermMs]

/-- Core property of shiftTo under weight-consistent conversion factors: it
preserves the weighted total of the values, supports only the target units,
and keeps configuration and validity. -/
theorem shiftTo_core (acc : Accuracy) (S : DUnit → Bool) (w : DUnit → ℚ)
    (Hc : ∀ a b, S a = true → S b = true → conv acc a b = w a / w b)
    (Hw : ∀ x, S x = true → w x ≠ 0) (d : Duration)
    (hacc : d.config.conversionAccuracy = acc) (hd : d.isValid = true)
    (hsupp : ∀ x, S x = false → d.values x = none)
    (ts : List DUnit) (hts : ∀ t ∈ ts, S t = true) (htne : ts ≠ []) :
    vsum w (d.shiftTo ts).values orderedUnits = vsum w d.values orderedUnits
    ∧ (∀ x, x ∉ ts → (d.shiftTo ts).values x = none)
    ∧ (d.shiftTo ts).config = d.config ∧ (d.shiftTo ts).invalidInfo = d.invalidInfo := by
  have hstep : d.shiftTo ts
      = ⟨fun u => alookup (settleLast acc
            (shiftGo acc (fun u => decide (u ∈ ts)) orderedUnits d.values []).1
            (shiftGo acc (fun u => decide (u ∈ ts)) orderedUnits d.values []).2) u,
         d.config, d.invalidInfo⟩ := by
    simp only [Duration.shiftTo, hd, if_true, htne, if_false, hacc]
  set r := shiftGo acc (fun u => decide (u ∈ ts)) orderedUnits d.values [] with hr
  set s := settleLast acc r.1 r.2 with hs
  have HT : ∀ x, S x = false → decide (x ∈ ts) = false := by
    intro x hx
    cases h2 : decide (x ∈ ts)
    · rfl
    · have hmem := hts x (of_decide_eq_true h2)
      rw [hmem] at hx
      exact absurd hx (by simp)
  have hGo := shiftGo_spec acc S w Hc Hw (fun u => decide (u ∈ ts)) HT orderedUnits d.values []
    orderedUnits_nodup hsupp (by intro p hp; exact absurd hp (List.not_mem_nil p))
  rw [← hr] at hGo
  have hkeys : r.1.map Prod.fst = orderedUnits.filter (fun x => decide (x ∈ ts)) := hGo.2.2
  have hbS : ∀ p ∈ r.1, S p.1 = true := by
    intro p hp
    have hmm : p.1 ∈ r.1.map Prod.fst := List.mem_map_of_mem Prod.fst hp
    rw [hkeys] at hmm
    exact hts p.1 (of_decide_eq_true (List.mem_filter.mp hmm).2)
  have hbne : r.1 ≠ [] := by
    obtain ⟨t0, ht0⟩ := List.exists_mem_of_ne_nil ts htne
    have hmm : t0 ∈ orderedUnits.filter (fun x => decide (x ∈ ts)) :=
      List.mem_filter.mpr ⟨DUnit.mem_orderedUnits t0, decide_eq_true ht0⟩
    intro hnil
    rw [hnil] at hkeys
    rw [← hkeys] at hmm
    exact absurd hmm (List.not_mem_nil t0)
  have hSettle := settleLast_spec acc S w Hc Hw r.1 r.2 hbS hGo.2.1 hbne
  rw [← hs] at hSettle
  have hskeys : s.map Prod.fst = orderedUnits.filter (fun x => decide (x ∈ ts)) := by
    rw [hSettle.2, hkeys]
  have hlook := vsum_alookup w s orderedUnits orderedUnits_nodup
    (by intro x hx; rw [hskeys] at hx; exact (List.mem_filter.mp hx).1)
    (by rw [hskeys]; exact orderedUnits_nodup.filter _)
  refine ⟨?_, ?_, ?_, ?_⟩
  · rw [hstep]
    show vsum w (fun u => alookup s u) orderedUnits = vsum w d.values orderedUnits
    rw [hlook, hSettle.1]
    have hg1 := hGo.1
    simp only [wsum, List.map_nil, List.sum_nil, add_zero] at hg1 ⊢
    linarith [hg1]
  · intro x hx
    rw [hstep]
    show alookup s x = none
    apply alookup_eq_none
    rw [hskeys]
    intro hmem
    exact hx (of_decide_eq_true (List.mem_filter.mp hmem).2)
  · rw [hstep]
  · rw [hstep]

/-- Characterization of as on a weight-consistent support: it is the
weighted total divided by the target unit's weight. -/
theorem as_char (acc : Accuracy) (S : DUnit → Bool) (w : DUnit → ℚ)
    (Hc : ∀ a b, S a = true → S b = true → conv acc a b = w a / w b)
    (Hw : ∀ x, S x = true → w x ≠ 0) (d : Duration)
    (hacc : d.config.conversionAccuracy = acc) (hd : d.isValid = true)
    (hsupp : ∀ x, S x = false → d.values x = none) (u : DUnit) (hu : S u = true) :
    d.as u = some (vsum w d.values orderedUnits / w u) := by
  have hcore := shiftTo_core acc S w Hc Hw d hacc hd hsupp [u]
    (by intro t ht; rcases List.mem_singleton.mp ht with rfl; exact hu)
    (by simp)
  have hone : ∀ x, x ≠ u → (d.shiftTo [u]).values x = none := by
    intro x hx
    exact hcore.2.1 x (by simp [hx])
  have hvalid : (d.shiftTo [u]).isValid = true := by
    show (d.shiftTo [u]).invalidInfo.isNone = true
    rw [hcore.2.2.2]
    exact hd
  have hsingle := vsum_single w (d.shiftTo [u]).values u hone orderedUnits orderedUnits_nodup
    (DUnit.mem_orderedUnits u)
  have hwu := Hw u hu
  have hval : ((d.shiftTo [u]).values u).getD 0 = vsum w d.values orderedUnits / w u := by
    rw [← hcore.1, hsingle]
    field_simp
  simp only [Duration.as, hd, if_true, Duration.get, hvalid, Duration.gv, hval]

/-- C7 counterexample: under the default casual accuracy, one year measured
directly in days gives 365, but shifted to months first and then measured
in days gives 360 (12 months at 30 casual days each) — shiftTo does not
preserve the total magnitude through the mutually inconsistent casual
calendar factors. -/
theorem C7_counterexample :
    ¬ (((Duration.fromObject (fun x => if x = DUnit.years then some 1 else none)
          noOpts).shiftTo [DUnit.months]).as DUnit.days
        = (Duration.fromObject (fun x => if x = DUnit.years then some 1 else none)
            noOpts).as DUnit.days) := by
  with_unfolding_all decide

/-- C7 (amended): shiftTo preserves the total measured by as whenever the
conversion factors in play compose consistently: always under long-term
accuracy, and under the default casual accuracy whenever the duration, the
shift targets and the measuring unit all stay within the strictly
time-based units (weeks and smaller); for casual calendar units the claim
fails. -/
theorem C7_amended_shiftTo_preserves_as (d : Duration) (ts : List DUnit) (u : DUnit)
    (hd : d.isValid = true)
    (h : d.config.conversionAccuracy = Accuracy.longterm ∨
         (d.config.conversionAccuracy = Accuracy.casual ∧
          (∀ x : DUnit, x ∉ timeUnits → d.values x = none) ∧
          (∀ t ∈ ts, t ∈ timeUnits) ∧ u ∈ timeUnits)) :
    (d.shiftTo ts).as u = d.as u := by
  by_cases hts : ts = []
  · subst hts
    simp [Duration.shiftTo, hd]
  · rcases h with hlt | ⟨hca, hsupp, htsS, huS⟩
    · have Hc : ∀ a b : DUnit, true = true → true = true →
          conv Accuracy.longterm a b = longtermMs a / longtermMs b := by
        intro a b _ _
        exact conv_longterm_ratio a b
      have Hw : ∀ x : DUnit, true = true → longtermMs x ≠ 0 := by
        intro x _
        exact longtermMs_ne_zero x
      have hvac : ∀ x : DUnit, (fun _ : DUnit => true) x = false → d.values x = none := by
        intro x hx
        exact absurd hx (by simp)
      have hcore := shiftTo_core Accuracy.longterm (fun _ => true) longtermMs Hc Hw d hlt hd
        hvac ts (by intro t _; rfl) hts
      have hvalid : (d.shiftTo ts).isValid = true := by
        show (d.shiftTo ts).invalidInfo.isNone = true
        rw [hcore.2.2.2]
        exact hd
      have hacc2 : (d.shiftTo ts).config.conversionAccuracy = Accuracy.longterm := by
        rw [hcore.2.2.1]
        exact hlt
      have hvac2 : ∀ x : DUnit, (fun _ : DUnit => true) x = false →
          (d.shiftTo ts).values x = none := by
        intro x hx
        exact absurd hx (by simp)
      rw [as_char Accuracy.longterm (fun _ => true) longtermMs Hc Hw (d.shiftTo ts) hacc2 hvalid
          hvac2 u rfl,
        as_char Accuracy.longterm (fun _ => true) longtermMs Hc Hw d hlt hd hvac u rfl,
        hcore.1]
    · have Hc := conv_casual_time_ratio
      have Hw : ∀ x : DUnit, decide (x ∈ timeUnits) = true → casualMs x ≠ 0 :=
        fun x _ => casualMs_ne_zero x
      have hsuppB : ∀ x : DUnit, decide (x ∈ timeUnits) = false → d.values x = none :=
        fun x hx => hsupp x (of_decide_eq_false hx)
      have htsS2 : ∀ t ∈ ts, decide (t ∈ timeUnits) = true :=
        fun t ht => decide_eq_true (htsS t ht)
      have huS2 : decide (u ∈ timeUnits) = true := decide_eq_true huS
      have hcore := shiftTo_core Accuracy.casual (fun x => decide (x ∈ timeUnits)) casualMs
        Hc Hw d hca hd hsuppB ts htsS2 hts
      have hvalid : (d.shiftTo ts).isValid = true := by
        show (d.shiftTo ts).invalidInfo.isNone = true
        rw [hcore.2.2.2]
        exact hd
      have hacc2 : (d.shiftTo ts).config.conversionAccuracy = Accuracy.casual := by
        rw [hcore.2.2.1]
        exact hca
      have hsupp2 : ∀ x : DUnit, decide (x ∈ timeUnits) = false →
          (d.shiftTo ts).values x = none := by
        intro x hx
        apply hcore.2.1
        intro hxts
        rw [decide_eq_true (htsS x hxts)] at hx
        exact absurd hx (by simp)
      rw [as_char Accuracy.casual (fun x => decide (x ∈ timeUnits)) casualMs Hc Hw
          (d.shiftTo ts) hacc2 hvalid hsupp2 u huS2,
        as_char Accuracy.casual (fun x => decide (x ∈ timeUnits)) casualMs Hc Hw d hca hd
          hsuppB u huS2,
        hcore.1]

/-- C7 witness: the amended statement checked on a concrete time-unit
duration (1 hour 30 seconds, casual accuracy), shifted to minutes and
milliseconds and measured back in seconds. -/
theorem C7_witness :
    (Duration.fromObject
      (fun x => if x = DUnit.hours then some 1
        else if x = DUnit.seconds then some 30 else none) noOpts).isValid = true ∧
    ((Duration.fromObject
        (fun x => if x = DUnit.hours then some 1
          else if x = DUnit.seconds then some 30 else none)
        noOpts).config.conversionAccuracy = Accuracy.longterm ∨
     ((Duration.fromObject
        (fun x => if x = DUnit.hours then some 1
          else if x = DUnit.seconds then some 30 else none)
        noOpts).config.conversionAccuracy = Accuracy.casual ∧
      (∀ x : DUnit, x ∉ timeUnits →
        (Duration.fromObject
          (fun x => if x = DUnit.hours then some 1
            else if x = DUnit.seconds then some 30 else none) noOpts).values x = none) ∧
      (∀ t ∈ [DUnit.minutes, DUnit.milliseconds], t ∈ timeUnits) ∧
      DUnit.seconds ∈ timeUnits)) ∧
    ((Duration.fromObject
        (fun x => if x = DUnit.hours then some 1
          else if x = DUnit.seconds then some 30 else none)
        noOpts).shiftTo [DUnit.minutes, DUnit.milliseconds]).as DUnit.seconds
      = (Duration.fromObject
          (fun x => if x = DUnit.hours then some 1
            else if x = DUnit.seconds then some 30 else none) noOpts).as DUnit.seconds :=
  ⟨rfl, by with_unfolding_all decide,
   C7_amended_shiftTo_preserves_as
     (Duration.fromObject
       (fun x => if x = DUnit.hours then some 1
         else if x = DUnit.seconds then some 30 else none) noOpts)
     [DUnit.minutes, DUnit.milliseconds] DUnit.seconds rfl
     (by with_unfolding_all decide)⟩
